import Mathlib

/-!
Verification development for the private Windows PE library loader
(`core/win32/loader.c`).  The C code is shallowly embedded: the module
registry and its load/unload operations become explicit state passing over
a `LoaderState`; unbounded recursion (mutually dependent libraries,
forwarder chains) is made total with an explicit fuel argument; the
environment the loader consumes (files on disk, exported symbols, the
native ntdll routines the redirectors fall back to) is passed in as data.
Machine words are modelled as `Nat` with explicit masks where a bit
pattern matters.
-/

set_option maxRecDepth 4000

namespace PrivLoader

/-- The part of a mapped PE image the registry-level model consumes:
its export short name (`get_dll_short_name`), its allocation size, and
the dependency short names read from its import descriptors. -/
structure Image where
  name : String
  size : Nat
  imports : List String
  deriving Repr, DecidableEq

/-- One registry node, mirroring `privmod_t` (base, size, name, ref_count,
externally_loaded); the doubly linked `next`/`prev` pointers are replaced
by the node's position in the `modlist` list. -/
structure Privmod where
  base : Nat
  size : Nat
  name : String
  refCount : Nat
  externallyLoaded : Bool
  deriving Repr, DecidableEq

/-- Loader state: `modlist` is the registry front first (the C list head),
`mapped` records which image is mapped at which base (the memory
the import walker reads through `mod->base`), `nextBase` is the allocator for
fresh mapping addresses, and `loadEdges` is ghost instrumentation that
records each `(dependent, newly loaded dependency)` pair passed to
`privload_insert`; it influences no behaviour and exists only to state
the registry-order invariant. -/
structure LoaderState where
  modlist : List Privmod
  mapped : List (Nat × Image)
  nextBase : Nat
  loadEdges : List (Nat × Nat)
  deriving Repr, DecidableEq

/-- The file system seen by `os_file_exists`/`map_file`: file name to image. -/
abbrev Fs := List (String × Image)

def fsLookup (fs : Fs) (fn : String) : Option Image :=
  (fs.find? (fun p => p.1 == fn)).map (fun p => p.2)

/-- ASCII `tolower` on a code point, as `strcasecmp` applies per byte. -/
def lowerNat (n : Nat) : Nat := if 65 ≤ n ∧ n ≤ 90 then n + 32 else n

def charsEqCI : List Char → List Char → Bool
  | [], [] => true
  | a :: as, b :: bs => (lowerNat a.toNat == lowerNat b.toNat) && charsEqCI as bs
  | _, _ => false

/-- `strcasecmp(a, b) == 0`. -/
def nameEq (a b : String) : Bool := charsEqCI a.data b.data

/-- `privload_lookup`: linear walk of the registry comparing short names
case-insensitively. -/
def privload_lookup (name : String) (st : LoaderState) : Option Privmod :=
  st.modlist.find? (fun m => nameEq name m.name)

/-- `privload_lookup_by_base`: linear walk comparing bases exactly. -/
def privload_lookup_by_base (b : Nat) (st : LoaderState) : Option Privmod :=
  st.modlist.find? (fun m => m.base == b)

/-- Splice a node immediately after the node with base `a`
(the `after != NULL` branch of `privload_insert`).  The C dereferences a
pointer that is always in the list; if `a` is absent the model appends. -/
def insertAfter (a : Nat) (mod : Privmod) : List Privmod → List Privmod
  | [] => [mod]
  | m :: rest => if m.base == a then m :: mod :: rest else m :: insertAfter a mod rest

/-- `privload_insert`: build the node with `ref_count = 1` and
`externally_loaded = false`; prepend when `after == NULL`, otherwise
splice right after the dependent.  The ghost edge list records the
dependent relationship used by the insertion. -/
def privload_insert (after : Option Nat) (base size : Nat) (name : String)
    (st : LoaderState) : LoaderState :=
  let mod : Privmod := ⟨base, size, name, 1, false⟩
  match after with
  | none => { st with modlist := mod :: st.modlist }
  | some a => { st with modlist := insertAfter a mod st.modlist,
                        loadEdges := (a, base) :: st.loadEdges }

/-- The `os_open`/`map_file` part of `privload_map_and_relocate` as the
registry model sees it: find the file, map its image at a fresh base.
(The relocation decision itself is modelled separately for claim C8.) -/
def privload_map_image (fs : Fs) (fn : String) (st : LoaderState) :
    Option (Nat × Image) × LoaderState :=
  match fsLookup fs fn with
  | none => (none, st)
  | some img =>
      (some (st.nextBase, img),
       { st with mapped := (st.nextBase, img) :: st.mapped,
                 nextBase := st.nextBase + 1 })

/-- Read the image mapped at base `b` (the PE headers the C reads through
`mod->base`). -/
def mappedImage (st : LoaderState) (b : Nat) : Option Image :=
  (st.mapped.find? (fun p => p.1 == b)).map (fun p => p.2)

/-- `mod->ref_count++` on the node with base `b`. -/
def incRefAt (b : Nat) (l : List Privmod) : List Privmod :=
  l.map (fun m => if m.base == b then { m with refCount := m.refCount + 1 } else m)

/-- `mod->ref_count--` on the node with base `b`. -/
def decRefAt (b : Nat) (l : List Privmod) : List Privmod :=
  l.map (fun m => if m.base == b then { m with refCount := m.refCount - 1 } else m)

/-- Unlink the (first) node with base `b`, mirroring the `prev`/`next`
surgery in `privload_unload`. -/
def removeBase (b : Nat) : List Privmod → List Privmod
  | [] => []
  | m :: rest => if m.base == b then rest else m :: removeBase b rest

/-- `unmap_file(privmod->base, privmod->size)`. -/
def unmapAt (b : Nat) (st : LoaderState) : LoaderState :=
  { st with mapped := st.mapped.filter (fun p => !(p.1 == b)) }

mutual

/-- `privload_load`: map the file, insert the node after its dependent
(before import processing, so mutually dependent libraries find it), then
finalize; a finalize failure unloads the partial module and returns NULL.
The entry-point call is modelled as succeeding (claim C10 models it
separately); fuel makes the mutual recursion total. -/
def privload_load (fuel : Nat) (fs : Fs) (filename : String)
    (dependent : Option Nat) (st : LoaderState) : Option Nat × LoaderState :=
  match fuel with
  | 0 => (none, st)
  | fuel + 1 =>
    match privload_map_image fs filename st with
    | (none, st1) => (none, st1)
    | (some (base, img), st1) =>
      let st2 := privload_insert dependent base img.size img.name st1
      match privload_process_imports fuel fs base img.imports st2 with
      | (true, st3) => (some base, st3)
      | (false, st3) => (none, (privload_unload fuel base st3).2)

/-- The dependency-loading loop of `privload_process_imports`: for
each import descriptor name, reuse the registry node (bumping its refcount) or
locate-and-load it with the current module as dependent; a missing
dependency aborts with failure. -/
def privload_process_imports (fuel : Nat) (fs : Fs) (modBase : Nat)
    (imps : List String) (st : LoaderState) : Bool × LoaderState :=
  match fuel with
  | 0 => (false, st)
  | fuel + 1 =>
    match imps with
    | [] => (true, st)
    | impname :: rest =>
      match privload_lookup impname st with
      | some impmod =>
          privload_process_imports fuel fs modBase rest
            { st with modlist := incRefAt impmod.base st.modlist }
      | none =>
        match privload_load fuel fs impname (some modBase) st with
        | (some _, st1) => privload_process_imports fuel fs modBase rest st1
        | (none, st1) => (false, st1)

/-- `privload_unload`: decrement the refcount; at zero unlink the node
and, unless it was externally loaded, unload its imports (read from the
still-mapped image) and unmap it.  Returns true exactly when the node was
freed. -/
def privload_unload (fuel : Nat) (b : Nat) (st : LoaderState) : Bool × LoaderState :=
  match fuel with
  | 0 => (false, st)
  | fuel + 1 =>
    match privload_lookup_by_base b st with
    | none => (false, st)
    | some m =>
      if m.refCount - 1 == 0 then
        let st1 := { st with modlist := removeBase b st.modlist }
        if m.externallyLoaded then (true, st1)
        else
          let imps := match mappedImage st1 b with
                      | some img => img.imports
                      | none => []
          let st2 := privload_unload_imports fuel imps st1
          (true, unmapAt b st2)
      else
        (false, { st with modlist := decRefAt b st.modlist })

/-- `privload_unload_imports`: walk the import descriptors and unload each
dependency still found in the registry (absent ones are tolerated). -/
def privload_unload_imports (fuel : Nat) (imps : List String)
    (st : LoaderState) : LoaderState :=
  match fuel with
  | 0 => st
  | fuel + 1 =>
    match imps with
    | [] => st
    | impname :: rest =>
      match privload_lookup impname st with
      | none => privload_unload_imports fuel rest st
      | some impmod =>
          privload_unload_imports fuel rest (privload_unload fuel impmod.base st).2

end

/-- `load_private_library`: under the loader lock, reuse a resident module
(returning its base without touching its refcount, as the C does) or load
it fresh. -/
def load_private_library (fuel : Nat) (fs : Fs) (filename : String)
    (st : LoaderState) : Option Nat × LoaderState :=
  match privload_lookup filename st with
  | some m => (some m.base, st)
  | none => privload_load fuel fs filename none st

/-- `unload_private_library`: look the base up; false for an unknown base,
otherwise whatever `privload_unload` returns. -/
def unload_private_library (fuel : Nat) (b : Nat) (st : LoaderState) :
    Bool × LoaderState :=
  match privload_lookup_by_base b st with
  | none => (false, st)
  | some _ => privload_unload fuel b st

/-- The state `loader_init` would build before any private load, with the
externally loaded seed modules omitted (they carry no load edges). -/
def initState : LoaderState := ⟨[], [], 1, []⟩

/-! ### Registry order: predicates and invariant -/

/-- Some node with base `b` is on the list. -/
def memBase (b : Nat) (l : List Privmod) : Bool := l.any (fun m => m.base == b)

/-- A node with base `b` occurs strictly in front of one with base `c`. -/
def before (b c : Nat) : List Privmod → Bool
  | [] => false
  | m :: rest => (m.base == b && memBase c rest) || before b c rest

/-- Position from the front of the node with base `b` (the claim's `index`). -/
def idxOf (b : Nat) (l : List Privmod) : Nat := l.findIdx (fun m => m.base == b)

def basesOf (l : List Privmod) : List Nat := l.map (fun m => m.base)

/-- The order the insertion policy actually maintains: whenever a
dependency was inserted on behalf of a dependent (a ghost load edge) and
both are still registered, the dependent sits in front of the dependency,
so front-to-back unloading tears dependents down first. -/
def RegistryOrdered (st : LoaderState) : Prop :=
  ∀ e ∈ st.loadEdges, memBase e.1 st.modlist = true → memBase e.2 st.modlist = true →
    before e.1 e.2 st.modlist = true

/-- Well-formedness of a loader state: registered bases are distinct and
below the allocation cursor, ghost edges mention only allocated bases,
refcounts are positive (the `ASSERT(privmod->ref_count > 0)`), and the
registry order holds. -/
def WF (st : LoaderState) : Prop :=
  (basesOf st.modlist).Nodup ∧
  (∀ m ∈ st.modlist, m.base < st.nextBase) ∧
  (∀ e ∈ st.loadEdges, e.1 < st.nextBase ∧ e.2 < st.nextBase) ∧
  (∀ m ∈ st.modlist, 1 ≤ m.refCount) ∧
  RegistryOrdered st

instance : DecidablePred WF := fun st => by
  unfold WF RegistryOrdered; infer_instance

/-! ### List lemmas about the registry operations -/

theorem memBase_cons {b : Nat} {m : Privmod} {l : List Privmod} :
    memBase b (m :: l) = (m.base == b || memBase b l) := by
  simp [memBase]

theorem memBase_true_iff {b : Nat} {l : List Privmod} :
    memBase b l = true ↔ b ∈ basesOf l := by
  induction l with
  | nil => simp [memBase, basesOf]
  | cons m rest ih =>
      rw [memBase_cons]
      simp only [basesOf, List.map_cons, List.mem_cons, Bool.or_eq_true, beq_iff_eq]
      rw [ih]
      unfold basesOf
      exact or_congr_left eq_comm

theorem memBase_insertAfter {x a : Nat} {mod : Privmod} {l : List Privmod} :
    memBase x (insertAfter a mod l) = (mod.base == x || memBase x l) := by
  induction l with
  | nil => simp [insertAfter, memBase]
  | cons m rest ih =>
      by_cases h : m.base == a
      · simp [insertAfter, h, memBase_cons]
        cases mod.base == x <;> cases m.base == x <;> simp
      · simp only [insertAfter, h, Bool.false_eq_true, if_false, memBase_cons, ih]
        cases mod.base == x <;> cases m.base == x <;> simp

theorem before_cons_of {x y : Nat} {m : Privmod} {l : List Privmod}
    (h : before x y l = true) : before x y (m :: l) = true := by
  simp [before, h]

theorem before_imp_memBase {x y : Nat} {l : List Privmod}
    (h : before x y l = true) : memBase x l = true ∧ memBase y l = true := by
  induction l with
  | nil => simp [before] at h
  | cons m rest ih =>
      simp only [before, Bool.or_eq_true, Bool.and_eq_true] at h
      rcases h with ⟨h1, h2⟩ | h
      · exact ⟨by simp [memBase_cons, h1], by simp [memBase_cons, h2]⟩
      · exact ⟨by simp [memBase_cons, (ih h).1], by simp [memBase_cons, (ih h).2]⟩

theorem before_insertAfter_preserve {x y a : Nat} {mod : Privmod} {l : List Privmod}
    (h : before x y l = true) :
    before x y (insertAfter a mod l) = true := by
  induction l with
  | nil => simp [before] at h
  | cons m rest ih =>
      simp only [before, Bool.or_eq_true, Bool.and_eq_true] at h
      by_cases ha : m.base == a
      · simp only [insertAfter, ha, if_true]
        rcases h with ⟨h1, h2⟩ | h
        · simp [before, h1, memBase_cons, h2]
        · exact before_cons_of (before_cons_of h)
      · simp only [insertAfter, ha, Bool.false_eq_true, if_false]
        rcases h with ⟨h1, h2⟩ | h
        · have : memBase y (insertAfter a mod rest) = true := by
            simp [memBase_insertAfter, h2]
          simp [before, h1, this]
        · simp [before, ih h]

theorem before_insertAfter_new {a : Nat} {mod : Privmod} {l : List Privmod}
    (h : memBase a l = true) : before a mod.base (insertAfter a mod l) = true := by
  induction l with
  | nil => simp [memBase] at h
  | cons m rest ih =>
      by_cases ha : m.base == a
      · simp [insertAfter, ha, before, memBase_cons]
      · rw [memBase_cons] at h
        simp only [ha, Bool.false_or] at h
        simp [insertAfter, ha, before, ih h]

theorem memBase_map {x : Nat} {g : Privmod → Privmod} (hg : ∀ m, (g m).base = m.base)
    {l : List Privmod} : memBase x (l.map g) = memBase x l := by
  induction l with
  | nil => rfl
  | cons m rest ih => simp [memBase_cons, hg, ih]

theorem before_map {x y : Nat} {g : Privmod → Privmod} (hg : ∀ m, (g m).base = m.base)
    {l : List Privmod} : before x y (l.map g) = before x y l := by
  induction l with
  | nil => rfl
  | cons m rest ih => simp [before, hg, memBase_map hg, ih]

theorem basesOf_map {g : Privmod → Privmod} (hg : ∀ m, (g m).base = m.base)
    {l : List Privmod} : basesOf (l.map g) = basesOf l := by
  induction l with
  | nil => rfl
  | cons m rest ih =>
      simp only [basesOf, List.map_cons] at ih ⊢
      rw [hg, ih]

theorem memBase_decRefAt {x b : Nat} {l : List Privmod} :
    memBase x (decRefAt b l) = memBase x l := by
  unfold decRefAt
  exact memBase_map (by intro q; by_cases hq : q.base == b <;> simp [hq])

theorem removeBase_sublist (b : Nat) (l : List Privmod) :
    List.Sublist (removeBase b l) l := by
  induction l with
  | nil => simp [removeBase]
  | cons m rest ih =>
      by_cases h : m.base == b
      · simpa [removeBase, h] using (List.sublist_cons_self m rest)
      · simpa [removeBase, h] using ih.cons₂ m

theorem memBase_removeBase {x b : Nat} {l : List Privmod}
    (h : memBase x l = true) (hxb : x ≠ b) : memBase x (removeBase b l) = true := by
  induction l with
  | nil => simp [memBase] at h
  | cons m rest ih =>
      rw [memBase_cons] at h
      by_cases hm : m.base == b
      · have hmx : (m.base == x) = false := by
          simp only [beq_iff_eq] at hm ⊢
          simp [hm, Ne.symm hxb]
        rw [hmx, Bool.false_or] at h
        simp [removeBase, hm, h]
      · rcases Bool.or_eq_true _ _ |>.mp h with h1 | h2
        · simp [removeBase, hm, memBase_cons, h1]
        · simp [removeBase, hm, memBase_cons, ih h2]

theorem memBase_of_removeBase {x b : Nat} {l : List Privmod}
    (h : memBase x (removeBase b l) = true) : memBase x l = true := by
  have hsub := (removeBase_sublist b l).map (fun m => m.base)
  rw [memBase_true_iff] at h ⊢
  exact hsub.subset h

theorem memBase_removeBase_self {b : Nat} {l : List Privmod}
    (hn : (basesOf l).Nodup) : memBase b (removeBase b l) = false := by
  induction l with
  | nil => simp [removeBase, memBase]
  | cons m rest ih =>
      simp only [basesOf, List.map_cons, List.nodup_cons] at hn
      by_cases hm : m.base == b
      · simp only [removeBase, hm, if_true]
        rw [beq_iff_eq] at hm
        subst hm
        rw [← Bool.not_eq_true, memBase_true_iff]
        exact hn.1
      · simp only [removeBase, hm, Bool.false_eq_true, if_false, memBase_cons, hm,
          Bool.false_or]
        exact ih hn.2

theorem before_removeBase {x y b : Nat} {l : List Privmod}
    (h : before x y l = true) (hx : x ≠ b) (hy : y ≠ b) :
    before x y (removeBase b l) = true := by
  induction l with
  | nil => simp [before] at h
  | cons m rest ih =>
      simp only [before, Bool.or_eq_true, Bool.and_eq_true] at h
      by_cases hm : m.base == b
      · simp only [removeBase, hm, if_true]
        rcases h with ⟨h1, _⟩ | h
        · rw [beq_iff_eq] at hm h1
          exact absurd (h1 ▸ hm) hx
        · exact h
      · simp only [removeBase, hm, Bool.false_eq_true, if_false]
        rcases h with ⟨h1, h2⟩ | h
        · simp [before, h1, memBase_removeBase h2 hy]
        · simp [before, ih h]

theorem perm_basesOf_insertAfter (a : Nat) (mod : Privmod) (l : List Privmod) :
    (basesOf (insertAfter a mod l)).Perm (mod.base :: basesOf l) := by
  induction l with
  | nil => simp [insertAfter, basesOf]
  | cons m rest ih =>
      by_cases hm : m.base == a
      · simp only [insertAfter, hm, if_true, basesOf, List.map_cons]
        exact List.Perm.swap _ _ _
      · simp only [insertAfter, hm, Bool.false_eq_true, if_false, basesOf, List.map_cons]
        exact (ih.cons m.base).trans (List.Perm.swap _ _ _)

theorem nodup_insertAfter {a : Nat} {mod : Privmod} {l : List Privmod}
    (hn : (basesOf l).Nodup) (hfresh : memBase mod.base l = false) :
    (basesOf (insertAfter a mod l)).Nodup := by
  have hmem : mod.base ∉ basesOf l := by
    rw [← Bool.not_eq_true, memBase_true_iff] at hfresh
    exact hfresh
  exact ((perm_basesOf_insertAfter a mod l).nodup_iff).mpr (List.nodup_cons.mpr ⟨hmem, hn⟩)

theorem mem_of_mem_insertAfter {a : Nat} {mod m : Privmod} {l : List Privmod}
    (h : m ∈ insertAfter a mod l) : m = mod ∨ m ∈ l := by
  induction l with
  | nil => simpa [insertAfter] using h
  | cons x rest ih =>
      by_cases hx : x.base == a
      · simp only [insertAfter, hx, if_true, List.mem_cons] at h
        rcases h with h | h | h
        · exact Or.inr (by simp [h])
        · exact Or.inl h
        · exact Or.inr (List.mem_cons_of_mem _ h)
      · simp only [insertAfter, hx, Bool.false_eq_true, if_false, List.mem_cons] at h
        rcases h with h | h
        · exact Or.inr (by simp [h])
        · rcases ih h with h | h
          · exact Or.inl h
          · exact Or.inr (List.mem_cons_of_mem _ h)

theorem eq_of_same_base {l : List Privmod} (hn : (basesOf l).Nodup)
    {m m' : Privmod} (hm : m ∈ l) (hm' : m' ∈ l) (hb : m.base = m'.base) : m = m' := by
  induction l with
  | nil => cases hm
  | cons x rest ih =>
      simp only [basesOf, List.map_cons, List.nodup_cons] at hn
      rcases List.mem_cons.mp hm with h1 | h1 <;>
        rcases List.mem_cons.mp hm' with h2 | h2
      · rw [h1, h2]
      · exfalso
        apply hn.1
        rw [← h1, hb]
        exact List.mem_map_of_mem (fun q => q.base) h2
      · exfalso
        apply hn.1
        rw [← h2, ← hb]
        exact List.mem_map_of_mem (fun q => q.base) h1
      · exact ih hn.2 h1 h2

theorem find?_base_spec {b : Nat} {st : LoaderState} {m : Privmod}
    (h : privload_lookup_by_base b st = some m) : m ∈ st.modlist ∧ m.base = b := by
  unfold privload_lookup_by_base at h
  refine ⟨List.mem_of_find?_eq_some h, ?_⟩
  have := List.find?_some h
  simpa using this

theorem memBase_of_lookup_by_base {b : Nat} {st : LoaderState} {m : Privmod}
    (h : privload_lookup_by_base b st = some m) : memBase b st.modlist = true := by
  obtain ⟨hm, hb⟩ := find?_base_spec h
  rw [memBase_true_iff]
  exact hb ▸ List.mem_map_of_mem (fun m => m.base) hm

/-! ### Well-formedness is preserved by each registry mutation -/

theorem WF_mapRefCount {st : LoaderState} (g : Privmod → Privmod)
    (hg : ∀ m, (g m).base = m.base)
    (hrc : ∀ m ∈ st.modlist, 1 ≤ (g m).refCount) (h : WF st) :
    WF { st with modlist := st.modlist.map g } := by
  obtain ⟨h1, h2, h3, h4, h5⟩ := h
  refine ⟨?_, ?_, h3, ?_, ?_⟩
  · show (basesOf (st.modlist.map g)).Nodup
    rw [basesOf_map hg]; exact h1
  · intro m' hm'
    obtain ⟨x, hx, rfl⟩ := List.mem_map.mp hm'
    show (g x).base < st.nextBase
    rw [hg]; exact h2 x hx
  · intro m' hm'
    obtain ⟨x, hx, rfl⟩ := List.mem_map.mp hm'
    exact hrc x hx
  · intro e he hm1 hm2
    dsimp only at he hm1 hm2 ⊢
    rw [memBase_map hg] at hm1 hm2
    rw [before_map hg]
    exact h5 e he hm1 hm2

theorem WF_incRefAt {st : LoaderState} (b : Nat) (h : WF st) :
    WF { st with modlist := incRefAt b st.modlist } := by
  have h4 := h.2.2.2.1
  unfold incRefAt
  refine WF_mapRefCount _ ?_ ?_ h
  · intro m; by_cases hh : m.base == b <;> simp [hh]
  · intro m hm
    have := h4 m hm
    by_cases hh : m.base == b <;> simp [hh] <;> omega

theorem WF_decRefAt {st : LoaderState} {b : Nat} {m : Privmod} (h : WF st)
    (hfind : privload_lookup_by_base b st = some m) (hrc : 2 ≤ m.refCount) :
    WF { st with modlist := decRefAt b st.modlist } := by
  obtain ⟨hmem, hbase⟩ := find?_base_spec hfind
  have h1 := h.1
  have h4 := h.2.2.2.1
  unfold decRefAt
  refine WF_mapRefCount _ ?_ ?_ h
  · intro x; by_cases hh : x.base == b <;> simp [hh]
  · intro x hx
    by_cases hh : x.base == b
    · have hxm : x = m := eq_of_same_base h1 hx hmem (by rw [hbase]; exact beq_iff_eq.mp hh)
      subst hxm
      simp only [hh, if_true]
      omega
    · simpa [hh] using h4 x hx

theorem WF_removeBase {st : LoaderState} (b : Nat) (h : WF st) :
    WF { st with modlist := removeBase b st.modlist } := by
  obtain ⟨h1, h2, h3, h4, h5⟩ := h
  have hsub := removeBase_sublist b st.modlist
  refine ⟨?_, ?_, h3, ?_, ?_⟩
  · show (basesOf (removeBase b st.modlist)).Nodup
    unfold basesOf at h1 ⊢
    exact h1.sublist (hsub.map (fun m => m.base))
  · intro m hm; exact h2 m (hsub.subset hm)
  · intro m hm; exact h4 m (hsub.subset hm)
  · intro e he hm1 hm2
    dsimp only at he hm1 hm2 ⊢
    have hne1 : e.1 ≠ b := by
      intro hc; rw [hc] at hm1
      rw [memBase_removeBase_self h1] at hm1
      cases hm1
    have hne2 : e.2 ≠ b := by
      intro hc; rw [hc] at hm2
      rw [memBase_removeBase_self h1] at hm2
      cases hm2
    exact before_removeBase
      (h5 e he (memBase_of_removeBase hm1) (memBase_of_removeBase hm2)) hne1 hne2

theorem WF_unmapAt {st : LoaderState} (b : Nat) (h : WF st) : WF (unmapAt b st) := h

theorem WF_grow {st : LoaderState} (h : WF st) (M : List (Nat × Image)) :
    WF { st with mapped := M, nextBase := st.nextBase + 1 } := by
  obtain ⟨h1, h2, h3, h4, h5⟩ := h
  refine ⟨h1, ?_, ?_, h4, h5⟩
  · intro m hm; exact Nat.lt_succ_of_lt (h2 m hm)
  · intro e he; exact ⟨Nat.lt_succ_of_lt (h3 e he).1, Nat.lt_succ_of_lt (h3 e he).2⟩

theorem WF_privload_insert {st : LoaderState} {dep : Option Nat} {base size : Nat}
    {name : String} (h : WF st)
    (hfresh : ∀ m ∈ st.modlist, m.base < base)
    (hedges : ∀ e ∈ st.loadEdges, e.1 < base ∧ e.2 < base)
    (hlt : base < st.nextBase)
    (hdep : ∀ a, dep = some a → a < base) :
    WF (privload_insert dep base size name st) := by
  obtain ⟨h1, h2, h3, h4, h5⟩ := h
  have hnotmem : memBase base st.modlist = false := by
    rw [← Bool.not_eq_true, memBase_true_iff]
    intro hc
    obtain ⟨m, hm, hmb⟩ := List.mem_map.mp hc
    exact absurd hmb (Nat.ne_of_lt (hfresh m hm))
  cases dep with
  | none =>
      show WF { st with
        modlist := (⟨base, size, name, 1, false⟩ : Privmod) :: st.modlist }
      refine ⟨?_, ?_, h3, ?_, ?_⟩
      · show (basesOf ((⟨base, size, name, 1, false⟩ : Privmod) :: st.modlist)).Nodup
        simp only [basesOf, List.map_cons, List.nodup_cons]
        refine ⟨?_, h1⟩
        rw [← Bool.not_eq_true, memBase_true_iff] at hnotmem
        exact hnotmem
      · intro m hm
        rcases List.mem_cons.mp hm with rfl | hm
        · exact hlt
        · exact h2 m hm
      · intro m hm
        rcases List.mem_cons.mp hm with rfl | hm
        · exact Nat.le_refl 1
        · exact h4 m hm
      · intro e he hm1 hm2
        dsimp only at he hm1 hm2 ⊢
        rw [memBase_cons] at hm1 hm2
        have hne1 : (base == e.1) = false :=
          beq_eq_false_iff_ne.mpr (Nat.ne_of_gt (hedges e he).1)
        have hne2 : (base == e.2) = false :=
          beq_eq_false_iff_ne.mpr (Nat.ne_of_gt (hedges e he).2)
        rw [show (⟨base, size, name, 1, false⟩ : Privmod).base = base from rfl] at hm1 hm2
        rw [hne1, Bool.false_or] at hm1
        rw [hne2, Bool.false_or] at hm2
        exact before_cons_of (h5 e he hm1 hm2)
  | some a =>
      have ha : a < base := hdep a rfl
      show WF { st with
        modlist := insertAfter a (⟨base, size, name, 1, false⟩ : Privmod) st.modlist,
        loadEdges := (a, base) :: st.loadEdges }
      refine ⟨?_, ?_, ?_, ?_, ?_⟩
      · exact nodup_insertAfter h1 hnotmem
      · intro m hm
        rcases mem_of_mem_insertAfter hm with rfl | hm
        · exact hlt
        · exact h2 m hm
      · intro e he
        rcases List.mem_cons.mp he with rfl | he
        · exact ⟨Nat.lt_trans ha hlt, hlt⟩
        · exact ⟨(h3 e he).1, (h3 e he).2⟩
      · intro m hm
        rcases mem_of_mem_insertAfter hm with rfl | hm
        · exact Nat.le_refl 1
        · exact h4 m hm
      · intro e he hm1 hm2
        dsimp only at he hm1 hm2 ⊢
        rw [memBase_insertAfter] at hm1 hm2
        rw [show (⟨base, size, name, 1, false⟩ : Privmod).base = base from rfl]
          at hm1 hm2
        rcases List.mem_cons.mp he with rfl | he
        · dsimp only at hm1 hm2 ⊢
          have hne : (base == a) = false :=
            beq_eq_false_iff_ne.mpr (Nat.ne_of_gt ha)
          rw [hne, Bool.false_or] at hm1
          exact @before_insertAfter_new a ⟨base, size, name, 1, false⟩ st.modlist hm1
        · have hne1 : (base == e.1) = false :=
            beq_eq_false_iff_ne.mpr (Nat.ne_of_gt (hedges e he).1)
          have hne2 : (base == e.2) = false :=
            beq_eq_false_iff_ne.mpr (Nat.ne_of_gt (hedges e he).2)
          rw [hne1, Bool.false_or] at hm1
          rw [hne2, Bool.false_or] at hm2
          exact before_insertAfter_preserve (h5 e he hm1 hm2)

/-! ### The loader operations preserve well-formedness -/

theorem nextBase_mono : ∀ fuel : Nat,
    (∀ fs fn dep st, st.nextBase ≤ (privload_load fuel fs fn dep st).2.nextBase) ∧
    (∀ fs mb imps st,
        st.nextBase ≤ (privload_process_imports fuel fs mb imps st).2.nextBase) ∧
    (∀ b st, st.nextBase ≤ (privload_unload fuel b st).2.nextBase) ∧
    (∀ imps st, st.nextBase ≤ (privload_unload_imports fuel imps st).nextBase) := by
  intro fuel
  induction fuel with
  | zero =>
      refine ⟨?_, ?_, ?_, ?_⟩ <;> intros <;>
        simp [privload_load, privload_process_imports, privload_unload,
          privload_unload_imports]
  | succ f ih =>
      obtain ⟨ihL, ihP, ihU, ihUI⟩ := ih
      refine ⟨?_, ?_, ?_, ?_⟩
      · intro fs fn dep st
        cases hfs : fsLookup fs fn with
        | none => simp [privload_load, privload_map_image, hfs]
        | some img =>
            simp only [privload_load, privload_map_image, hfs]
            rcases hproc : privload_process_imports f fs st.nextBase img.imports
                (privload_insert dep st.nextBase img.size img.name
                  { st with mapped := (st.nextBase, img) :: st.mapped,
                            nextBase := st.nextBase + 1 }) with ⟨bres, st3⟩
            have hP := ihP fs st.nextBase img.imports
              (privload_insert dep st.nextBase img.size img.name
                { st with mapped := (st.nextBase, img) :: st.mapped,
                          nextBase := st.nextBase + 1 })
            rw [hproc] at hP
            have hins : (privload_insert dep st.nextBase img.size img.name
                { st with mapped := (st.nextBase, img) :: st.mapped,
                          nextBase := st.nextBase + 1 }).nextBase
                = st.nextBase + 1 := by
              cases dep <;> rfl
            rw [hins] at hP
            cases bres
            · have hU := ihU st.nextBase st3
              simp only []
              exact Nat.le_trans (Nat.le_succ _) (Nat.le_trans hP hU)
            · exact Nat.le_trans (Nat.le_succ _) hP
      · intro fs mb imps st
        cases imps with
        | nil => simp [privload_process_imports]
        | cons impname rest =>
            simp only [privload_process_imports]
            cases hlk : privload_lookup impname st with
            | some impmod =>
                have := ihP fs mb rest
                  { st with modlist := incRefAt impmod.base st.modlist }
                simpa using this
            | none =>
                rcases hload : privload_load f fs impname (some mb) st with ⟨ores, st1⟩
                have hL := ihL fs impname (some mb) st
                rw [hload] at hL
                cases ores
                · simpa using hL
                · have := ihP fs mb rest st1
                  simp only []
                  exact Nat.le_trans hL this
      · intro b st
        simp only [privload_unload]
        cases hlk : privload_lookup_by_base b st with
        | none => exact Nat.le_refl _
        | some m =>
            by_cases hrc : (m.refCount - 1 == 0) = true
            · simp only [hrc, if_true]
              cases hext : m.externallyLoaded
              · simp only [Bool.false_eq_true, if_false]
                have := ihUI
                  (match mappedImage { st with modlist := removeBase b st.modlist } b with
                   | some img => img.imports
                   | none => [])
                  { st with modlist := removeBase b st.modlist }
                simpa [unmapAt] using this
              · simp
            · simp only [Bool.not_eq_true] at hrc
              simp [hrc]
      · intro imps st
        cases imps with
        | nil => simp [privload_unload_imports]
        | cons impname rest =>
            simp only [privload_unload_imports]
            cases hlk : privload_lookup impname st with
            | none => exact ihUI rest st
            | some impmod =>
                have hU := ihU impmod.base st
                have := ihUI rest (privload_unload f impmod.base st).2
                exact Nat.le_trans hU this

theorem WF_preserved : ∀ fuel : Nat,
    (∀ fs fn dep st, WF st → (∀ a, dep = some a → a < st.nextBase) →
        WF (privload_load fuel fs fn dep st).2) ∧
    (∀ fs mb imps st, WF st → mb < st.nextBase →
        WF (privload_process_imports fuel fs mb imps st).2) ∧
    (∀ b st, WF st → WF (privload_unload fuel b st).2) ∧
    (∀ imps st, WF st → WF (privload_unload_imports fuel imps st)) := by
  intro fuel
  induction fuel with
  | zero =>
      refine ⟨?_, ?_, ?_, ?_⟩ <;> intros <;>
        simp only [privload_load, privload_process_imports, privload_unload,
          privload_unload_imports] <;> assumption
  | succ f ih =>
      obtain ⟨ihL, ihP, ihU, ihUI⟩ := ih
      refine ⟨?_, ?_, ?_, ?_⟩
      · intro fs fn dep st hWF hdep
        cases hfs : fsLookup fs fn with
        | none => simpa [privload_load, privload_map_image, hfs] using hWF
        | some img =>
            simp only [privload_load, privload_map_image, hfs]
            have hWF1 : WF { st with mapped := (st.nextBase, img) :: st.mapped,
                                     nextBase := st.nextBase + 1 } :=
              WF_grow hWF _
            have hWF2 : WF (privload_insert dep st.nextBase img.size img.name
                { st with mapped := (st.nextBase, img) :: st.mapped,
                          nextBase := st.nextBase + 1 }) := by
              refine WF_privload_insert hWF1 ?_ ?_ (Nat.lt_succ_self _) hdep
              · exact hWF.2.1
              · exact hWF.2.2.1
            rcases hproc : privload_process_imports f fs st.nextBase img.imports
                (privload_insert dep st.nextBase img.size img.name
                  { st with mapped := (st.nextBase, img) :: st.mapped,
                            nextBase := st.nextBase + 1 }) with ⟨bres, st3⟩
            have hWF3 : WF st3 := by
              have hmb : st.nextBase <
                  (privload_insert dep st.nextBase img.size img.name
                    { st with mapped := (st.nextBase, img) :: st.mapped,
                              nextBase := st.nextBase + 1 }).nextBase := by
                have : (privload_insert dep st.nextBase img.size img.name
                    { st with mapped := (st.nextBase, img) :: st.mapped,
                              nextBase := st.nextBase + 1 }).nextBase
                    = st.nextBase + 1 := by cases dep <;> rfl
                rw [this]; exact Nat.lt_succ_self _
              have := ihP fs st.nextBase img.imports _ hWF2 hmb
              rw [hproc] at this
              exact this
            cases bres
            · exact ihU st.nextBase st3 hWF3
            · exact hWF3
      · intro fs mb imps st hWF hmb
        cases imps with
        | nil => simpa [privload_process_imports] using hWF
        | cons impname rest =>
            simp only [privload_process_imports]
            cases hlk : privload_lookup impname st with
            | some impmod =>
                exact ihP fs mb rest _ (WF_incRefAt impmod.base hWF) hmb
            | none =>
                rcases hload : privload_load f fs impname (some mb) st with ⟨ores, st1⟩
                have hWF1 : WF st1 := by
                  have := ihL fs impname (some mb) st hWF
                    (by intro a ha; cases ha; exact hmb)
                  rw [hload] at this
                  exact this
                have hmb1 : mb < st1.nextBase := by
                  have := (nextBase_mono f).1 fs impname (some mb) st
                  rw [hload] at this
                  exact Nat.lt_of_lt_of_le hmb this
                cases ores
                · exact hWF1
                · exact ihP fs mb rest st1 hWF1 hmb1
      · intro b st hWF
        simp only [privload_unload]
        cases hlk : privload_lookup_by_base b st with
        | none => exact hWF
        | some m =>
            by_cases hrc : (m.refCount - 1 == 0) = true
            · simp only [hrc, if_true]
              have hWF1 : WF { st with modlist := removeBase b st.modlist } :=
                WF_removeBase b hWF
              cases hext : m.externallyLoaded
              · simp only [Bool.false_eq_true, if_false]
                exact WF_unmapAt b (ihUI _ _ hWF1)
              · simpa using hWF1
            · have hrcf : (m.refCount - 1 == 0) = false := by
                rw [Bool.not_eq_true] at hrc; exact hrc
              simp only [hrcf, Bool.false_eq_true, if_false]
              have hge : 2 ≤ m.refCount := by
                have := beq_eq_false_iff_ne.mp hrcf
                omega
              exact WF_decRefAt hWF hlk hge
      · intro imps st hWF
        cases imps with
        | nil => simpa [privload_unload_imports] using hWF
        | cons impname rest =>
            simp only [privload_unload_imports]
            cases hlk : privload_lookup impname st with
            | none => exact ihUI rest st hWF
            | some impmod => exact ihUI rest _ (ihU impmod.base st hWF)

/-! ### Claim C1: registry order -/

theorem idx_lt_of_before {b c : Nat} {l : List Privmod}
    (hn : (basesOf l).Nodup) (h : before b c l = true) :
    idxOf b l < idxOf c l := by
  induction l with
  | nil => simp [before] at h
  | cons m rest ih =>
      simp only [basesOf, List.map_cons, List.nodup_cons] at hn
      simp only [before, Bool.or_eq_true, Bool.and_eq_true] at h
      rcases h with ⟨h1, h2⟩ | h
      · have hmc : (m.base == c) = false := by
          rw [beq_eq_false_iff_ne]
          intro hc
          apply hn.1
          rw [hc]
          rw [memBase_true_iff] at h2
          exact h2
        simp only [idxOf, List.findIdx_cons, h1, hmc, cond_true, cond_false]
        exact Nat.succ_pos _
      · have hb := (before_imp_memBase h).1
        have hc := (before_imp_memBase h).2
        have hmb : (m.base == b) = false := by
          rw [beq_eq_false_iff_ne]
          intro hx
          apply hn.1
          rw [hx]
          rw [memBase_true_iff] at hb
          exact hb
        have hmc : (m.base == c) = false := by
          rw [beq_eq_false_iff_ne]
          intro hx
          apply hn.1
          rw [hx]
          rw [memBase_true_iff] at hc
          exact hc
        simp only [idxOf, List.findIdx_cons, hmb, hmc, cond_false]
        exact Nat.succ_lt_succ (ih hn.2 h)

/-- The registry-order statement in the claim's `index` language, over the
ghost load edges: every dependent sits strictly in front of each
dependency that was loaded on its behalf. -/
def RegistryOrderedIdx (st : LoaderState) : Prop :=
  ∀ e ∈ st.loadEdges, memBase e.1 st.modlist = true → memBase e.2 st.modlist = true →
    idxOf e.1 st.modlist < idxOf e.2 st.modlist

theorem RegistryOrderedIdx_of_WF {st : LoaderState} (h : WF st) :
    RegistryOrderedIdx st := fun e he h1 h2 =>
  idx_lt_of_before h.1 (h.2.2.2.2 e he h1 h2)

/-- `D` is a direct dependency of `M` recorded in `M`'s import directory
(the claim's notion of direct dependency, read from the mapped image). -/
def isDirectDep (st : LoaderState) (M D : Privmod) : Bool :=
  match mappedImage st M.base with
  | none => false
  | some img => img.imports.any (fun s => nameEq s D.name)

/-- Claim C1 exactly as stated: every registered direct dependency `D` of a
registered module `M` has `index(D) < index(M)`. -/
def ClaimC1 (st : LoaderState) : Prop :=
  ∀ M ∈ st.modlist, ∀ D ∈ st.modlist, isDirectDep st M D = true →
    idxOf D.base st.modlist < idxOf M.base st.modlist

/-- Two files: `a.dll` imports `b.dll`. -/
def fsC1 : Fs := [("a.dll", ⟨"a.dll", 4096, ["b.dll"]⟩), ("b.dll", ⟨"b.dll", 4096, []⟩)]

/-- C1, counterexample: loading `a.dll` (which imports `b.dll`) leaves the
registry as `[a.dll, b.dll]`, so the direct dependency `b.dll` has index 1,
strictly greater than its dependent's index 0 — the claimed
`index(D) < index(M)` is false on the loader's insertion order (the C
comment says the list is kept in reverse-dependent order so unloading can
proceed from the front). -/
theorem privload_registry_order_claim_false :
    ¬ ClaimC1 (load_private_library 10 fsC1 "a.dll" initState).2 := by
  intro hC
  have hM : (⟨1, 4096, "a.dll", 1, false⟩ : Privmod) ∈
      (load_private_library 10 fsC1 "a.dll" initState).2.modlist := by decide
  have hD : (⟨2, 4096, "b.dll", 1, false⟩ : Privmod) ∈
      (load_private_library 10 fsC1 "a.dll" initState).2.modlist := by decide
  have hdep : isDirectDep (load_private_library 10 fsC1 "a.dll" initState).2
      ⟨1, 4096, "a.dll", 1, false⟩ ⟨2, 4096, "b.dll", 1, false⟩ = true := by decide
  have hlt := hC _ hM _ hD hdep
  exact absurd hlt (by decide)

/-- C1, amended: the order invariant holds with the inequality reversed
and restricted to the pairs the insertion policy actually orders: whenever
the loader lock is free (after any public load or unload call on a
well-formed state), each module that had a dependency loaded on its
behalf sits strictly in front of that dependency
(`index(M) < index(D)`), so front-to-back iteration unloads dependents
first.  (For a dependency found already resident — e.g. mutual imports —
the code only bumps the refcount and establishes no order.) -/
theorem privload_registry_order_invariant (fuel : Nat) (fs : Fs) (fn : String)
    (b : Nat) (st : LoaderState) (h : WF st) :
    WF (load_private_library fuel fs fn st).2 ∧
    RegistryOrderedIdx (load_private_library fuel fs fn st).2 ∧
    WF (unload_private_library fuel b st).2 ∧
    RegistryOrderedIdx (unload_private_library fuel b st).2 := by
  have hl : WF (load_private_library fuel fs fn st).2 := by
    unfold load_private_library
    cases hlk : privload_lookup fn st with
    | some m => exact h
    | none => exact (WF_preserved fuel).1 fs fn none st h (by intro a ha; cases ha)
  have hu : WF (unload_private_library fuel b st).2 := by
    unfold unload_private_library
    cases hlk : privload_lookup_by_base b st with
    | none => exact h
    | some m => exact (WF_preserved fuel).2.2.1 b st h
  exact ⟨hl, RegistryOrderedIdx_of_WF hl, hu, RegistryOrderedIdx_of_WF hu⟩

/-- Witness for the amended C1 at a concrete input: the initial state is
well-formed and the invariant holds after loading `a.dll`. -/
theorem privload_registry_order_invariant_witness :
    WF initState ∧ RegistryOrderedIdx (load_private_library 10 fsC1 "a.dll" initState).2 :=
  ⟨by decide,
   (privload_registry_order_invariant 10 fsC1 "a.dll" 1 initState (by decide)).2.1⟩

/-! ### Claims C4 and C9: load/unload and refcounts -/

/-- Unloading never adds registry nodes: any base present afterwards was
present before. -/
theorem unload_modlist_shrink : ∀ fuel : Nat,
    (∀ b st x, memBase x (privload_unload fuel b st).2.modlist = true →
        memBase x st.modlist = true) ∧
    (∀ imps st x, memBase x (privload_unload_imports fuel imps st).modlist = true →
        memBase x st.modlist = true) := by
  intro fuel
  induction fuel with
  | zero =>
      refine ⟨?_, ?_⟩ <;> intros <;>
        simp_all [privload_unload, privload_unload_imports]
  | succ f ih =>
      obtain ⟨ihU, ihUI⟩ := ih
      refine ⟨?_, ?_⟩
      · intro b st x h
        simp only [privload_unload] at h
        cases hlk : privload_lookup_by_base b st with
        | none => rw [hlk] at h; exact h
        | some m =>
            rw [hlk] at h
            dsimp only at h
            by_cases hrc : (m.refCount - 1 == 0) = true
            · rw [hrc] at h
              simp only [if_true] at h
              cases hext : m.externallyLoaded
              · rw [hext] at h
                simp only [Bool.false_eq_true, if_false] at h
                have h2 := ihUI _ _ _ h
                exact memBase_of_removeBase h2
              · rw [hext] at h
                simp only [if_true] at h
                exact memBase_of_removeBase h
            · rw [Bool.not_eq_true] at hrc
              rw [hrc] at h
              simp only [Bool.false_eq_true, if_false] at h
              rw [memBase_decRefAt] at h
              exact h
      · intro imps st x h
        cases imps with
        | nil => simpa [privload_unload_imports] using h
        | cons impname rest =>
            simp only [privload_unload_imports] at h
            cases hlk : privload_lookup impname st with
            | none => rw [hlk] at h; exact ihUI rest st x h
            | some impmod =>
                rw [hlk] at h
                exact ihU impmod.base st x (ihUI rest _ x h)

theorem mappedImage_unmapAt (st : LoaderState) (b : Nat) :
    mappedImage (unmapAt b st) b = none := by
  unfold mappedImage unmapAt
  rw [List.find?_eq_none.mpr]
  · rfl
  · intro x hx
    have := (List.mem_filter.mp hx).2
    rw [Bool.not_eq_true'] at this
    rw [this]
    exact Bool.false_ne_true

/-- C9: `unload_private_library` returns true exactly on the
refcount-reaches-zero path, where the module is removed from the registry
(and unmapped unless externally loaded); a known base whose refcount stays
positive yields false with the module still resident — the same false an
unknown base yields. -/
theorem unload_private_library_semantics (f : Nat) (b : Nat) (st : LoaderState)
    (hWF : WF st) :
    (privload_lookup_by_base b st = none →
        unload_private_library (f+1) b st = (false, st)) ∧
    (∀ m, privload_lookup_by_base b st = some m → 2 ≤ m.refCount →
        (unload_private_library (f+1) b st).1 = false ∧
        memBase b (unload_private_library (f+1) b st).2.modlist = true) ∧
    (∀ m, privload_lookup_by_base b st = some m → m.refCount = 1 →
        (unload_private_library (f+1) b st).1 = true ∧
        memBase b (unload_private_library (f+1) b st).2.modlist = false ∧
        (m.externallyLoaded = false →
            mappedImage (unload_private_library (f+1) b st).2 b = none)) := by
  refine ⟨?_, ?_, ?_⟩
  · intro hnone
    unfold unload_private_library
    rw [hnone]
  · intro m hfind hge
    have hrcf : (m.refCount - 1 == 0) = false := beq_eq_false_iff_ne.mpr (by omega)
    unfold unload_private_library
    rw [hfind]
    simp only [privload_unload, hfind, hrcf, Bool.false_eq_true, if_false]
    refine ⟨trivial, ?_⟩
    rw [memBase_decRefAt]
    exact memBase_of_lookup_by_base hfind
  · intro m hfind hone
    have hrct : (m.refCount - 1 == 0) = true := by rw [hone]; rfl
    unfold unload_private_library
    rw [hfind]
    simp only [privload_unload, hfind, hrct, if_true]
    have hrem : memBase b (removeBase b st.modlist) = false :=
      memBase_removeBase_self hWF.1
    cases hext : m.externallyLoaded
    · simp only [Bool.false_eq_true, if_false]
      refine ⟨trivial, ?_, ?_⟩
      · rw [← Bool.not_eq_true]
        intro hmb
        have := (unload_modlist_shrink f).2 _ _ _ hmb
        rw [hrem] at this
        cases this
      · intro _
        exact mappedImage_unmapAt _ b
    · simp only [if_true]
      refine ⟨trivial, hrem, ?_⟩
      intro hc
      exact Bool.noConfusion hc

/-- A concrete well-formed state with one resident leaf module at base 1,
refcount 1. -/
def stC9 : LoaderState :=
  ⟨[⟨1, 4096, "leaf.dll", 1, false⟩], [(1, ⟨"leaf.dll", 4096, []⟩)], 2, []⟩

/-- Witness for C9 at a concrete input: unloading base 1 (refcount 1)
returns true, removes the module and unmaps it; a second unload of the
now-unknown base returns false. -/
theorem unload_private_library_semantics_witness :
    WF stC9 ∧
    (privload_lookup_by_base 1 stC9 =
        some ⟨1, 4096, "leaf.dll", 1, false⟩) ∧
    ((unload_private_library 3 1 stC9).1 = true ∧
     memBase 1 (unload_private_library 3 1 stC9).2.modlist = false ∧
     ((⟨1, 4096, "leaf.dll", 1, false⟩ : Privmod).externallyLoaded = false →
         mappedImage (unload_private_library 3 1 stC9).2 1 = none)) :=
  ⟨by decide, by decide,
   (unload_private_library_semantics 2 1 stC9 (by decide)).2.2
     ⟨1, 4096, "leaf.dll", 1, false⟩ (by decide) (by decide)⟩

/-- One leaf library on disk. -/
def fsC4 : Fs := [("leaf.dll", ⟨"leaf.dll", 4096, []⟩)]

/-- C4, counterexample: for a not-yet-resident library, two successive
loads do return the same base, but `load_private_library` does not bump
the refcount when `privload_lookup` hits, so the refcount is still 1 and
the FIRST `unload_private_library` already returns true and removes the
module — contradicting the claim that the module remains resident after a
single unload. -/
theorem load_private_library_reload_claim_false :
    (load_private_library 10 fsC4 "leaf.dll" initState).1 = some 1 ∧
    (load_private_library 10 fsC4 "leaf.dll"
        (load_private_library 10 fsC4 "leaf.dll" initState).2).1 = some 1 ∧
    (unload_private_library 10 1
        (load_private_library 10 fsC4 "leaf.dll"
          (load_private_library 10 fsC4 "leaf.dll" initState).2).2).1 = true ∧
    memBase 1 (unload_private_library 10 1
        (load_private_library 10 fsC4 "leaf.dll"
          (load_private_library 10 fsC4 "leaf.dll" initState).2).2).2.modlist
      = false := by decide

/-- C4, amended: for a leaf library not already resident, two successive
`load_private_library` calls return the same (fresh) base and the second
call does not change the state at all — in particular the refcount stays
at 1.  Consequently a single `unload_private_library` on that base already
returns true and removes the module, and the second unload sees an
unknown base and returns false. -/
theorem load_private_library_reload_amended (f : Nat) (fs : Fs) (fn : String)
    (st : LoaderState) (img : Image) (hWF : WF st)
    (hfile : fsLookup fs fn = some img) (hleaf : img.imports = [])
    (hname : nameEq fn img.name = true)
    (hnotres : privload_lookup fn st = none) :
    (load_private_library (f+2) fs fn st).1 = some st.nextBase ∧
    (load_private_library (f+2) fs fn
        (load_private_library (f+2) fs fn st).2).1 = some st.nextBase ∧
    (load_private_library (f+2) fs fn
        (load_private_library (f+2) fs fn st).2).2
      = (load_private_library (f+2) fs fn st).2 ∧
    privload_lookup_by_base st.nextBase (load_private_library (f+2) fs fn st).2
      = some ⟨st.nextBase, img.size, img.name, 1, false⟩ ∧
    (unload_private_library (f+2) st.nextBase
        (load_private_library (f+2) fs fn st).2).1 = true ∧
    memBase st.nextBase
        (unload_private_library (f+2) st.nextBase
          (load_private_library (f+2) fs fn st).2).2.modlist = false ∧
    (unload_private_library (f+2) st.nextBase
        (unload_private_library (f+2) st.nextBase
          (load_private_library (f+2) fs fn st).2).2).1 = false := by
  have hf2 : f + 2 = (f + 1) + 1 := rfl
  have hmod : ∀ m ∈ st.modlist, (m.base == st.nextBase) = false := by
    intro m hm
    exact beq_eq_false_iff_ne.mpr (Nat.ne_of_lt (hWF.2.1 m hm))
  -- the state right after the first load
  have hload : load_private_library (f+2) fs fn st =
      (some st.nextBase,
       { modlist := (⟨st.nextBase, img.size, img.name, 1, false⟩ : Privmod)
            :: st.modlist,
         mapped := (st.nextBase, img) :: st.mapped,
         nextBase := st.nextBase + 1,
         loadEdges := st.loadEdges }) := by
    unfold load_private_library
    rw [hnotres, hf2]
    simp only [privload_load, privload_map_image, hfile, hleaf,
      privload_process_imports, privload_insert]
  rw [hload]
  have hlk2 : privload_lookup fn
      { modlist := (⟨st.nextBase, img.size, img.name, 1, false⟩ : Privmod)
          :: st.modlist,
        mapped := (st.nextBase, img) :: st.mapped,
        nextBase := st.nextBase + 1,
        loadEdges := st.loadEdges }
      = some ⟨st.nextBase, img.size, img.name, 1, false⟩ := by
    unfold privload_lookup
    simp only [List.find?_cons, hname]
  have hbase2 : privload_lookup_by_base st.nextBase
      { modlist := (⟨st.nextBase, img.size, img.name, 1, false⟩ : Privmod)
          :: st.modlist,
        mapped := (st.nextBase, img) :: st.mapped,
        nextBase := st.nextBase + 1,
        loadEdges := st.loadEdges }
      = some ⟨st.nextBase, img.size, img.name, 1, false⟩ := by
    unfold privload_lookup_by_base
    simp [List.find?_cons]
  have hunload : unload_private_library (f+2) st.nextBase
      { modlist := (⟨st.nextBase, img.size, img.name, 1, false⟩ : Privmod)
          :: st.modlist,
        mapped := (st.nextBase, img) :: st.mapped,
        nextBase := st.nextBase + 1,
        loadEdges := st.loadEdges }
      = (true,
         { modlist := st.modlist,
           mapped := ((st.nextBase, img) :: st.mapped).filter
               (fun p => !(p.1 == st.nextBase)),
           nextBase := st.nextBase + 1,
           loadEdges := st.loadEdges }) := by
    unfold unload_private_library
    rw [hbase2, hf2]
    simp only [privload_unload, hbase2]
    have hrm : removeBase st.nextBase
        ((⟨st.nextBase, img.size, img.name, 1, false⟩ : Privmod) :: st.modlist)
        = st.modlist := by
      simp [removeBase]
    simp only [hrm]
    have hmi : mappedImage
        { modlist := st.modlist,
          mapped := (st.nextBase, img) :: st.mapped,
          nextBase := st.nextBase + 1,
          loadEdges := st.loadEdges } st.nextBase = some img := by
      unfold mappedImage
      simp [List.find?_cons]
    simp only [hmi, hleaf]
    simp [privload_unload_imports, unmapAt]
  refine ⟨rfl, ?_, ?_, hbase2, ?_, ?_, ?_⟩
  · unfold load_private_library
    rw [hlk2]
  · unfold load_private_library
    rw [hlk2]
  · rw [hunload]
  · rw [hunload]
    rw [← Bool.not_eq_true, memBase_true_iff]
    intro hc
    obtain ⟨m, hm, hmb⟩ := List.mem_map.mp hc
    have := hmod m hm
    rw [hmb] at this
    simp at this
  · rw [hunload]
    unfold unload_private_library
    have hnone : privload_lookup_by_base st.nextBase
        { modlist := st.modlist,
          mapped := ((st.nextBase, img) :: st.mapped).filter
              (fun p => !(p.1 == st.nextBase)),
          nextBase := st.nextBase + 1,
          loadEdges := st.loadEdges } = none := by
      unfold privload_lookup_by_base
      apply List.find?_eq_none.mpr
      intro m hm
      rw [hmod m hm]
      exact Bool.false_ne_true
    rw [hnone]

/-- Witness for the amended C4 at a concrete input: the leaf library and
the empty initial state. -/
theorem load_private_library_reload_amended_witness :
    WF initState ∧
    ((load_private_library 10 fsC4 "leaf.dll" initState).1 = some initState.nextBase ∧
     (load_private_library 10 fsC4 "leaf.dll"
         (load_private_library 10 fsC4 "leaf.dll" initState).2).1
       = some initState.nextBase ∧
     (load_private_library 10 fsC4 "leaf.dll"
         (load_private_library 10 fsC4 "leaf.dll" initState).2).2
       = (load_private_library 10 fsC4 "leaf.dll" initState).2 ∧
     privload_lookup_by_base initState.nextBase
         (load_private_library 10 fsC4 "leaf.dll" initState).2
       = some ⟨initState.nextBase, 4096, "leaf.dll", 1, false⟩ ∧
     (unload_private_library 10 initState.nextBase
         (load_private_library 10 fsC4 "leaf.dll" initState).2).1 = true ∧
     memBase initState.nextBase
         (unload_private_library 10 initState.nextBase
           (load_private_library 10 fsC4 "leaf.dll" initState).2).2.modlist = false ∧
     (unload_private_library 10 initState.nextBase
         (unload_private_library 10 initState.nextBase
           (load_private_library 10 fsC4 "leaf.dll" initState).2).2).1 = false) :=
  ⟨by decide,
   load_private_library_reload_amended 8 fsC4 "leaf.dll" initState
     ⟨"leaf.dll", 4096, []⟩ (by decide) (by decide) (by decide) (by decide) (by decide)⟩

/-! ### Claims C2 and C7: per-slot import binding and forwarder chains -/

/-- `IMAGE_ORDINAL_FLAG64`: the high bit of a 64-bit thunk value. -/
def IMAGE_ORDINAL_FLAG : Nat := 2 ^ 63

/-- Environment for `privload_process_one_import`: symbol resolution
(`get_proc_address_ex` returning a function or a forwarder string),
registry lookup and locate-and-load keyed by module path, the redirection
table, and reading the `IMAGE_IMPORT_BY_NAME` string at a masked RVA. -/
structure BindEnv where
  resolve : Nat → String → Option Nat × Option String
  lookupMod : String → Option Nat
  loadMod : String → Option Nat
  redirect : Nat → String → Option Nat
  importName : Nat → String

inductive BindErr where
  | MissingSymbol
  | MissingDependency
  | ForwarderStringTooLong
  | MalformedForwarder
  | OutOfFuel
  deriving Repr, DecidableEq

/-- `strchr(forwarder, '.')`: split at the first dot, none when absent
(where the C would dereference `NULL + 1`). -/
def splitAtDot : List Char → Option (List Char × List Char)
  | [] => none
  | c :: rest =>
      if c = '.' then some ([], rest)
      else (splitAtDot rest).map (fun p => (c :: p.1, p.2))

/-- The NUL byte. -/
def NUL : Char := Char.ofNat 0

/-- The static `forwmodpath` buffer (loader.c:98), byte by byte; it is
zero-initialized (`{0}`) and persists across iterations and calls. -/
def zeroBuf : Nat → Char := fun _ => NUL

/-- Store the characters of `src` into the buffer starting at `pos`. -/
def bufWrite (buf : Nat → Char) (pos : Nat) : List Char → Nat → Char
  | [] => buf
  | c :: rest => bufWrite (fun p => if p = pos then c else buf p) (pos + 1) rest

def bufSet (buf : Nat → Char) (pos : Nat) (c : Char) : Nat → Char :=
  fun p => if p = pos then c else buf p

/-- This repo's `snprintf(dst, max, "%s", src)`: copy at most `max`
characters, and write a terminating NUL only when `src` is shorter than
`max` (when output fills `max` the result is NOT terminated — hence the
pervasive `NULL_TERMINATE_BUFFER` idiom in the code base). -/
def dr_snprintf (buf : Nat → Char) (pos : Nat) (src : List Char) (max : Nat) :
    Nat → Char :=
  if src.length < max then bufSet (bufWrite buf pos src) (pos + src.length) NUL
  else bufWrite buf pos (src.take max)

/-- Read the C string stored at `pos`: characters up to the first NUL
byte (bounded by the buffer size as fuel). -/
def readCStr (buf : Nat → Char) : Nat → Nat → List Char
  | _, 0 => []
  | pos, fuel + 1 =>
      if (buf pos).toNat == 0 then [] else buf pos :: readCStr buf (pos + 1) fuel

/-- The forwarder loop of `privload_process_one_import`
(`while (func == NULL) { ... }`), with the static `forwmodpath` buffer
threaded through.  On a nil forwarder fail as the C does
(`MissingSymbol`); otherwise split `"MODULE.SYMBOL"` at the first dot
(`strchr`), reject over-long module parts (the guard at loader.c:836
uses `forwfunc - forwarder + strlen("dll") >= 260`), then build the path
in the buffer exactly as the C does: `snprintf(forwmodpath,
forwfunc - forwarder, ...)` copies `"MODULE."` without a terminator,
`snprintf(forwmodpath + (forwfunc - forwarder), strlen("dll"), "dll")`
appends `dll` without a terminator, and loader.c:846 stores the NUL at
index `forwfunc - forwarder + strlen(".dll")` = `|MODULE| + 5` — one
byte PAST the end of `"MODULE.dll"`, so the byte at index `|MODULE| + 4`
keeps whatever the buffer held before.  The module looked up (and
located-and-loaded on a miss) is the C string now in the buffer; resolve
`SYMBOL` there and continue. -/
def privload_resolve_forwarders (env : BindEnv) :
    Nat → Option Nat → Option String → Nat → String → (Nat → Char) →
      Except BindErr (Nat × Nat × String) × (Nat → Char)
  | _, some f, _, forwmod, forwfunc, buf => (.ok (f, forwmod, forwfunc), buf)
  | 0, none, _, _, _, buf => (.error .OutOfFuel, buf)
  | fuel + 1, none, forwarder, _, _, buf =>
    match forwarder with
    | none => (.error .MissingSymbol, buf)
    | some fwd =>
      match splitAtDot fwd.data with
      | none => (.error .MalformedForwarder, buf)
      | some (modPart, symPart) =>
        if 260 ≤ modPart.length + 1 + 3 then (.error .ForwarderStringTooLong, buf)
        else
          let buf1 := dr_snprintf buf 0 fwd.data (modPart.length + 1)
          let buf2 := dr_snprintf buf1 (modPart.length + 1) ("dll".data) 3
          let buf3 := bufSet buf2 (modPart.length + 1 + 4) NUL
          let forwmodpath := String.mk (readCStr buf3 0 260)
          let sym := String.mk symPart
          match (match env.lookupMod forwmodpath with
                 | some b => some b
                 | none => env.loadMod forwmodpath) with
          | none => (.error .MissingDependency, buf3)
          | some b =>
              privload_resolve_forwarders env fuel (env.resolve b sym).1
                (env.resolve b sym).2 b sym buf3

/-- `privload_process_one_import` on one lookup-table value and one IAT
slot, with the static forwarder-path buffer passed alongside.  The
ordinal branch is exactly the release-build C: the `ASSERT_NOT_REACHED`
is a no-op and the function falls through to `return true` without
touching the slot.  The by-name branch resolves the import (following
forwarders), consults the redirection table on the final resolving
module, and writes the result into the slot.  Returns ((success, slot
value), final buffer). -/
def privload_process_one_import (env : BindEnv) (fuel : Nat) (impmodBase : Nat)
    (lookupVal slot : Nat) (buf : Nat → Char) : (Bool × Nat) × (Nat → Char) :=
  if Nat.testBit lookupVal 63 then
    ((true, slot), buf)
  else
    let name := env.importName (lookupVal % IMAGE_ORDINAL_FLAG)
    match privload_resolve_forwarders env fuel (env.resolve impmodBase name).1
        (env.resolve impmodBase name).2 impmodBase name buf with
    | (.error _, buf1) => ((false, slot), buf1)
    | (.ok (f, forwmod, forwfunc), buf1) =>
        let dst := match env.redirect forwmod forwfunc with
                   | some r => r
                   | none => f
        ((true, dst), buf1)

/-- A trivial binding environment for concrete runs. -/
def envC2 : BindEnv :=
  ⟨fun _ _ => (none, none), fun _ => none, fun _ => none, fun _ _ => none,
   fun _ => "Sym"⟩

/-- C2, counterexample: a thunk with the ordinal (high) bit set does NOT
make `privload_process_one_import` fail — the release build's
`ASSERT_NOT_REACHED()` is a no-op and the function returns success.  (The
IAT slot is indeed left unmodified; only the claimed failure is wrong.) -/
theorem privload_ordinal_import_claim_false :
    ¬ ((privload_process_one_import envC2 5 1 (2 ^ 63) 77 zeroBuf).1.1 = false) := by
  decide

/-- C2, amended: for every import slot whose high (ordinal) bit is set,
`privload_process_one_import` leaves the IAT slot unmodified but returns
success (true) instead of failing: release builds silently skip the
unsupported ordinal import (debug builds stop on `ASSERT_NOT_REACHED`),
so the load does not fail. -/
theorem privload_ordinal_import_skipped (env : BindEnv) (fuel impmodBase : Nat)
    (lookupVal slot : Nat) (buf : Nat → Char)
    (h : Nat.testBit lookupVal 63 = true) :
    (privload_process_one_import env fuel impmodBase lookupVal slot buf).1
      = (true, slot) := by
  unfold privload_process_one_import
  rw [h]
  simp

/-- Witness for the amended C2: the ordinal-flag value itself. -/
theorem privload_ordinal_import_skipped_witness :
    Nat.testBit (2 ^ 63) 63 = true ∧
    (privload_process_one_import envC2 5 1 (2 ^ 63) 77 zeroBuf).1 = (true, 77) :=
  ⟨by decide, privload_ordinal_import_skipped envC2 5 1 (2 ^ 63) 77 zeroBuf (by decide)⟩

/-- A forwarding environment exercising the static buffer across two
chain steps: the import resolves in module 7 to a forwarder
`"KERNELBASE.SleepEx"`; `KERNELBASE.dll` is resident at base 8, where
`SleepEx` forwards again to `"NTDLL.Zw"`; `NTDLL.dll` is resident at
base 9, where `Zw` resolves to address 4660. -/
def envC7bug : BindEnv :=
  ⟨fun b s =>
      if b == 7 && s == "Sleep" then (none, some "KERNELBASE.SleepEx")
      else if b == 8 && s == "SleepEx" then (none, some "NTDLL.Zw")
      else if b == 9 && s == "Zw" then (some 4660, none)
      else (none, none),
   fun p => if p == "KERNELBASE.dll" then some 8
            else if p == "NTDLL.dll" then some 9 else none,
   fun _ => none,
   fun _ _ => none,
   fun _ => "Sleep"⟩

/-- C7: evaluating the forwarder chain at the failing input.  The claim
(and the guard at loader.c:836, which uses the correct
`strlen("dll")` offset) intends the target file name `MODULE ++ ".dll"`,
but loader.c:846 stores the terminating NUL at
`forwfunc - forwarder + strlen(".dll")` — index `|MODULE| + 5`, one byte
past the end of the string — so the byte at `|MODULE| + 4` is stale
buffer content.  Consequences, all evaluated on the model: (1) a
single-step chain through `"NTDLL.Zw"` starting from the freshly
zero-initialized buffer works, because the stale byte is still 0 and the
looked-up path is exactly `"NTDLL.dll"`; (2) the two-step chain
`"KERNELBASE.SleepEx"` → `"NTDLL.Zw"` fails with `MissingDependency`
even though `NTDLL.dll` is resident, because after `"KERNELBASE.dll"`
used the buffer the stale byte at index 9 is the letter E of
`KERNELBASE`; (3) the C string actually looked up in step two is
`"NTDLL.dllE"`, not `"NTDLL.dll"`. -/
theorem privload_forwarder_terminator_bug :
    (privload_resolve_forwarders envC7bug 5 none (some "NTDLL.Zw") 7 "Sleep"
        zeroBuf).1 = .ok (4660, 9, "Zw") ∧
    envC7bug.lookupMod "NTDLL.dll" = some 9 ∧
    (privload_resolve_forwarders envC7bug 5 none (some "KERNELBASE.SleepEx") 7
        "Sleep" zeroBuf).1 = .error .MissingDependency ∧
    String.mk (readCStr
        (privload_resolve_forwarders envC7bug 5 none (some "KERNELBASE.SleepEx") 7
          "Sleep" zeroBuf).2 0 260) = "NTDLL.dllE" := by
  refine ⟨by rfl, by rfl, by rfl, by rfl⟩

/-! ### Claim C3: IAT page protection in `privload_process_imports` -/

def PAGE_SIZE : Nat := 4096
def PAGE_READWRITE : Nat := 4

/-- `PAGE_START`. -/
def pageStart (a : Nat) : Nat := a - a % PAGE_SIZE

/-- Page protections of the address space; everything else about memory is
irrelevant to the claim. -/
structure Mem where
  prot : Nat → Nat

/-- `protect_virtual_memory(page, PAGE_SIZE, newProt, &oldProt)`: returns
the old protection of the page and the updated memory.  The syscall is
modelled as succeeding; the C bails out early if it fails. -/
def protect_virtual_memory (page newProt : Nat) (mem : Mem) : Nat × Mem :=
  (mem.prot page, ⟨fun p => if p = page then newProt else mem.prot p⟩)

/-- The IAT walk of `privload_process_imports` for one import descriptor,
with each slot's `privload_process_one_import` outcome abstracted to a
`Bool`: walk `address` forward one word at a time; when the next slot
crosses a page boundary restore the finished page to `origProt` and make
the new page writable; after the terminating slot restore the current
page; on a failed slot return false immediately (the C's early
`return false` inside the loop). -/
def privload_process_slots (wordSize : Nat) :
    List Bool → Nat → Nat → Nat → Mem → Bool × Mem
  | [], _, iat, origProt, mem =>
      (true, (protect_virtual_memory (pageStart iat) origProt mem).2)
  | ok :: rest, addr, iat, origProt, mem =>
      if ok = false then (false, mem)
      else
        let addr1 := addr + wordSize
        if pageStart addr1 ≠ pageStart iat then
          let mem1 := (protect_virtual_memory (pageStart iat) origProt mem).2
          let r := protect_virtual_memory (pageStart addr1) PAGE_READWRITE mem1
          privload_process_slots wordSize rest addr1 addr1 r.1 r.2
        else
          privload_process_slots wordSize rest addr1 iat origProt mem

/-- The protection bracket of `privload_process_imports` around one
descriptor's IAT: make the first page writable, walk the slots, restoring
as pages are crossed and once more at the end. -/
def privload_process_imports_iat (slots : List Bool) (addr : Nat) (mem : Mem) :
    Bool × Mem :=
  let r := protect_virtual_memory (pageStart addr) PAGE_READWRITE mem
  privload_process_slots 8 slots addr addr r.1 r.2

theorem pageStart_idem (a : Nat) : pageStart (pageStart a) = pageStart a := by
  unfold pageStart PAGE_SIZE
  omega

/-- Invariant of the slot walk: if the walk succeeds, and on entry the
memory agrees with `orig` except that the current IAT page is writable
while `origProt` holds its original protection, then on return the memory
is exactly `orig`. -/
theorem privload_process_slots_restores (orig : Mem) (slots : List Bool) :
    ∀ addr iat origProt mem,
      pageStart iat = pageStart addr →
      origProt = orig.prot (pageStart addr) →
      (∀ p, mem.prot p =
        if p = pageStart addr then PAGE_READWRITE else orig.prot p) →
      (privload_process_slots 8 slots addr iat origProt mem).1 = true →
      ∀ p, (privload_process_slots 8 slots addr iat origProt mem).2.prot p
        = orig.prot p := by
  induction slots with
  | nil =>
      intro addr iat origProt mem hpg horig hmem _ p
      simp only [privload_process_slots, protect_virtual_memory]
      rw [hpg]
      by_cases hp : p = pageStart addr
      · simp [hp, horig]
      · simp [hp, hmem p]
  | cons ok rest ih =>
      intro addr iat origProt mem hpg horig hmem hok p
      by_cases hfail : ok = false
      · rw [hfail] at hok
        simp [privload_process_slots] at hok
      · have hoktrue : ok = true := by
          cases ok
          · exact absurd rfl hfail
          · rfl
        by_cases hcross : pageStart (addr + 8) ≠ pageStart iat
        · have heq : privload_process_slots 8 (ok :: rest) addr iat origProt mem
              = privload_process_slots 8 rest (addr + 8) (addr + 8)
                  ((protect_virtual_memory (pageStart (addr + 8)) PAGE_READWRITE
                    (protect_virtual_memory (pageStart iat) origProt mem).2).1)
                  ((protect_virtual_memory (pageStart (addr + 8)) PAGE_READWRITE
                    (protect_virtual_memory (pageStart iat) origProt mem).2).2) := by
            simp only [privload_process_slots, hoktrue]
            rw [if_neg (by simp), if_pos hcross]
          rw [heq] at hok ⊢
          have hneq : pageStart (addr + 8) ≠ pageStart addr := by
            rw [← hpg]; exact hcross
          refine ih (addr + 8) (addr + 8)
            ((protect_virtual_memory (pageStart (addr + 8)) PAGE_READWRITE
              (protect_virtual_memory (pageStart iat) origProt mem).2).1)
            ((protect_virtual_memory (pageStart (addr + 8)) PAGE_READWRITE
              (protect_virtual_memory (pageStart iat) origProt mem).2).2)
            rfl ?_ ?_ hok p
          · -- the old prot captured for the new page is the original one
            simp only [protect_virtual_memory]
            rw [hpg, if_neg hneq, hmem (pageStart (addr + 8)), if_neg hneq]
          · intro q
            simp only [protect_virtual_memory]
            rw [hpg]
            by_cases hq : q = pageStart (addr + 8)
            · rw [hq]; simp
            · rw [if_neg hq, if_neg hq]
              by_cases hq2 : q = pageStart addr
              · rw [if_pos hq2, horig, hq2]
              · rw [if_neg hq2, hmem q, if_neg hq2]
        · push_neg at hcross
          have heq : privload_process_slots 8 (ok :: rest) addr iat origProt mem
              = privload_process_slots 8 rest (addr + 8) iat origProt mem := by
            simp only [privload_process_slots, hoktrue]
            rw [if_neg (by simp), if_neg (by rw [hcross]; simp)]
          rw [heq] at hok ⊢
          have hpg2 : pageStart iat = pageStart (addr + 8) := hcross.symm
          refine ih (addr + 8) iat origProt mem hpg2 ?_ ?_ hok p
          · rw [← hpg2, hpg]
            exact horig
          · intro q
            rw [hpg2] at hpg
            rw [hmem q, hpg]

/-- C3, amended: on the success path the protection bracket is exact —
after `privload_process_imports` finishes a descriptor's IAT walk with
`true`, every page has its original protection back.  (On the slot-failure
path this is false; see the counterexample.) -/
theorem privload_process_imports_iat_restores (slots : List Bool) (addr : Nat)
    (mem : Mem) (hok : (privload_process_imports_iat slots addr mem).1 = true) :
    ∀ p, (privload_process_imports_iat slots addr mem).2.prot p = mem.prot p := by
  intro p
  unfold privload_process_imports_iat at hok ⊢
  exact privload_process_slots_restores mem slots addr addr
    (protect_virtual_memory (pageStart addr) PAGE_READWRITE mem).1
    (protect_virtual_memory (pageStart addr) PAGE_READWRITE mem).2
    rfl rfl (fun q => rfl) hok p

/-- Witness for the amended C3: three successful slots starting at address
4090 cross the page boundary at 4096; afterwards both touched pages are
back to their original protections (7 and 3). -/
theorem privload_process_imports_iat_restores_witness :
    ((privload_process_imports_iat [true, true, true] 4090
        ⟨fun p => if p = 0 then 7 else 3⟩).1 = true) ∧
    ((privload_process_imports_iat [true, true, true] 4090
        ⟨fun p => if p = 0 then 7 else 3⟩).2.prot 0 = 7 ∧
     (privload_process_imports_iat [true, true, true] 4090
        ⟨fun p => if p = 0 then 7 else 3⟩).2.prot 4096 = 3) :=
  ⟨by decide,
   privload_process_imports_iat_restores [true, true, true] 4090
     ⟨fun p => if p = 0 then 7 else 3⟩ (by decide) 0,
   privload_process_imports_iat_restores [true, true, true] 4090
     ⟨fun p => if p = 0 then 7 else 3⟩ (by decide) 4096⟩

/-- C3, counterexample: when `privload_process_one_import` fails on a slot
the C returns `false` immediately (loader.c:739-743) without restoring the
IAT page it had just made writable: with original protection 7 on page 0,
the failed walk leaves page 0 at `PAGE_READWRITE`. -/
theorem privload_process_imports_iat_leak :
    ((privload_process_imports_iat [false] 0 ⟨fun _ => 7⟩).1 = false) ∧
    ((privload_process_imports_iat [false] 0 ⟨fun _ => 7⟩).2.prot 0
      = PAGE_READWRITE) ∧ ¬ (PAGE_READWRITE = 7) := by
  refine ⟨by decide, by decide, by decide⟩

/-! ### Claims C5 and C6: Rtl*Heap redirection for `PEB.ProcessHeap` -/

/-- 64-bit address space bound; pointer arithmetic wraps at this. -/
def ADDR_SPACE : Nat := 2 ^ 64

/-- `ptr - sizeof(size_t)` on a 64-bit pointer (wrapping, so the header
address of `NULL` is `2^64 - 8`). -/
def hdrAddr (ptr : Nat) : Nat := (ptr + ADDR_SPACE - 8) % ADDR_SPACE

/-- State of the host's global heap: the arena `[heapStart, nextFree)` is
host-owned memory (`is_dynamo_address`), `blocks` are the live
allocations, and `mem` holds the machine words the redirector writes
(the size headers); unwritten words read as `none`. -/
structure HeapState where
  heapStart : Nat
  nextFree : Nat
  blocks : List (Nat × Nat)
  mem : Nat → Option Nat

/-- The real ntdll routines the redirector falls back to for heaps other
than `PEB.ProcessHeap` (and for pointers that are not host addresses). -/
structure NativeHeap where
  alloc : Nat → Nat → Nat → Nat
  free : Nat → Nat → Nat → Bool
  size : Nat → Nat → Nat → Nat
  realloc : Nat → Nat → Nat → Nat → Nat

/-- `global_heap_alloc`: bump allocation from the host arena. -/
def global_heap_alloc (size : Nat) (st : HeapState) : Nat × HeapState :=
  (st.nextFree,
   { st with nextFree := st.nextFree + size,
             blocks := (st.nextFree, size) :: st.blocks })

/-- `global_heap_free(ptr, size)`: drop the live block at `ptr`. -/
def global_heap_free (addr : Nat) (st : HeapState) : HeapState :=
  { st with blocks := st.blocks.filter (fun b => !(b.1 == addr)) }

/-- `is_dynamo_address`: true iff the pointer lies in host-owned memory
(the committed arena; freed blocks remain inside it). -/
def is_dynamo_address (st : HeapState) (p : Nat) : Bool :=
  decide (st.heapStart ≤ p) && decide (p < st.nextFree)

/-- `redirect_RtlAllocateHeap`: for `PEB.ProcessHeap`, add a machine-word
header (`size += sizeof(size_t)`), allocate from the host heap, store the
total size in the header, and return the address just past the header
(`HEAP_ZERO_MEMORY` zeroes data bytes the model does not track); any other
heap goes to the real `RtlAllocateHeap`. -/
def redirect_RtlAllocateHeap (nativeHp : NativeHeap) (processHeap heap flags size : Nat)
    (st : HeapState) : Nat × HeapState :=
  if heap == processHeap then
    let size1 := size + 8
    let r := global_heap_alloc size1 st
    let st2 := { r.2 with mem := fun a => if a = r.1 then some size1 else r.2.mem a }
    (r.1 + 8, st2)
  else
    (nativeHp.alloc heap flags size, st)

/-- `redirect_RtlFreeHeap`: private only when the heap is
`PEB.ProcessHeap` AND the pointer is a host address; then a non-null
pointer steps back over the header and frees (returning true) while a
null one returns false; otherwise the real `RtlFreeHeap` runs. -/
def redirect_RtlFreeHeap (nativeHp : NativeHeap) (processHeap heap flags ptr : Nat)
    (st : HeapState) : Bool × HeapState :=
  if heap == processHeap && is_dynamo_address st ptr then
    if !(ptr == 0) then
      (true, global_heap_free (hdrAddr ptr) st)
    else
      (false, st)
  else
    (nativeHp.free heap flags ptr, st)

/-- `redirect_RtlSizeHeap`: private path reads the stored total size from
the header word; null returns 0; non-private goes native. -/
def redirect_RtlSizeHeap (nativeHp : NativeHeap) (processHeap heap flags ptr : Nat)
    (st : HeapState) : Nat :=
  if heap == processHeap && is_dynamo_address st ptr then
    if !(ptr == 0) then (st.mem (hdrAddr ptr)).getD 0 else 0
  else
    nativeHp.size heap flags ptr

/-- Result of `redirect_RtlReAllocateHeap`: either a pointer with the new
state, or the undefined behaviour of reading a word that was never
allocated (`*(size_t *)(ptr - sizeof(size_t))` with `ptr` outside any
live allocation — in particular `ptr == NULL`). -/
inductive ReallocResult where
  | ok (ptr : Nat) (st : HeapState)
  | wildRead (addr : Nat)

/-- `redirect_RtlReAllocateHeap`: the guard deliberately admits
`ptr == NULL` into the private branch; the private branch then allocates
a fresh block and UNCONDITIONALLY reads the old size header at
`ptr - sizeof(size_t)` and copies — which for `ptr == NULL` is a wild
read below address zero.  Non-private goes to the real routine. -/
def redirect_RtlReAllocateHeap (nativeHp : NativeHeap)
    (processHeap heap flags ptr size : Nat) (st : HeapState) : ReallocResult :=
  if heap == processHeap && (is_dynamo_address st ptr || ptr == 0) then
    let r := redirect_RtlAllocateHeap nativeHp processHeap heap flags size st
    match r.2.mem (hdrAddr ptr) with
    | none => .wildRead (hdrAddr ptr)
    | some oldSize =>
        let _ := min oldSize size
        -- memcpy(buf, ptr, min(old_size, size)) copies data bytes the
        -- model does not track
        let r2 := redirect_RtlFreeHeap nativeHp processHeap heap flags ptr r.2
        .ok r.1 r2.2
  else
    .ok (nativeHp.realloc heap flags ptr size) st

/-- A trivial native-heap oracle and a small initial heap state. -/
def nativeHp0 : NativeHeap := ⟨fun _ _ _ => 0, fun _ _ _ => true, fun _ _ _ => 0,
  fun _ _ _ _ => 0⟩

def stHeap0 : HeapState := ⟨1000, 1000, [], fun _ => none⟩

/-- C5, counterexample: allocating 16 bytes from `PEB.ProcessHeap`
(handle 1) returns pointer 1008, but a subsequent `redirect_RtlSizeHeap`
returns the stored TOTAL size 24 = 16 + sizeof(size_t), not the claimed
`requested_size` 16: `RtlSizeHeap` never subtracts the header. -/
theorem redirect_RtlSizeHeap_claim_false :
    (redirect_RtlAllocateHeap nativeHp0 1 1 0 16 stHeap0).1 = 1008 ∧
    redirect_RtlSizeHeap nativeHp0 1 1 0
        (redirect_RtlAllocateHeap nativeHp0 1 1 0 16 stHeap0).1
        (redirect_RtlAllocateHeap nativeHp0 1 1 0 16 stHeap0).2 = 24 ∧
    ¬ (24 = 16) := by
  refine ⟨by decide, by decide, by decide⟩

/-- C5, amended: the allocator prepends one machine-word header holding
the total size `requested + 8` and returns the address just past it; the
pointer is a host address; a subsequent `redirect_RtlSizeHeap` returns
the stored total `requested_size + header_size` (not `requested_size`),
and a subsequent `redirect_RtlFreeHeap` returns true. -/
theorem redirect_RtlAllocateHeap_roundtrip (nativeHp : NativeHeap)
    (processHeap flags size : Nat) (st : HeapState)
    (hsize : 0 < size) (harena : st.heapStart ≤ st.nextFree)
    (hspace : st.nextFree + size + 8 < ADDR_SPACE) :
    (redirect_RtlAllocateHeap nativeHp processHeap processHeap flags size st).1
      = st.nextFree + 8 ∧
    (redirect_RtlAllocateHeap nativeHp processHeap processHeap flags size st).2.mem
        st.nextFree = some (size + 8) ∧
    is_dynamo_address
        (redirect_RtlAllocateHeap nativeHp processHeap processHeap flags size st).2
        (st.nextFree + 8) = true ∧
    redirect_RtlSizeHeap nativeHp processHeap processHeap flags (st.nextFree + 8)
        (redirect_RtlAllocateHeap nativeHp processHeap processHeap flags size st).2
      = size + 8 ∧
    (redirect_RtlFreeHeap nativeHp processHeap processHeap flags (st.nextFree + 8)
        (redirect_RtlAllocateHeap nativeHp processHeap processHeap flags size st).2).1
      = true := by
  have hhdr : hdrAddr (st.nextFree + 8) = st.nextFree := by
    unfold ADDR_SPACE at hspace
    unfold hdrAddr ADDR_SPACE
    have h1 : st.nextFree + 8 + 2 ^ 64 - 8 = st.nextFree + 2 ^ 64 := by omega
    rw [h1, Nat.add_mod_right]
    exact Nat.mod_eq_of_lt (by omega)
  have halloc : redirect_RtlAllocateHeap nativeHp processHeap processHeap flags size st
      = (st.nextFree + 8,
         { heapStart := st.heapStart,
           nextFree := st.nextFree + (size + 8),
           blocks := (st.nextFree, size + 8) :: st.blocks,
           mem := fun a => if a = st.nextFree then some (size + 8) else st.mem a }) := by
    unfold redirect_RtlAllocateHeap global_heap_alloc
    rw [if_pos (by simp)]
  rw [halloc]
  have hdyn : is_dynamo_address
      { heapStart := st.heapStart,
        nextFree := st.nextFree + (size + 8),
        blocks := (st.nextFree, size + 8) :: st.blocks,
        mem := fun a => if a = st.nextFree then some (size + 8) else st.mem a }
      (st.nextFree + 8) = true := by
    unfold is_dynamo_address
    simp only [Bool.and_eq_true, decide_eq_true_eq]
    omega
  refine ⟨rfl, by simp, hdyn, ?_, ?_⟩
  · unfold redirect_RtlSizeHeap
    rw [if_pos (by rw [hdyn]; simp)]
    rw [if_pos (by simp)]
    rw [hhdr]
    simp
  · unfold redirect_RtlFreeHeap
    rw [if_pos (by rw [hdyn]; simp)]
    rw [if_pos (by simp)]

/-- Witness for the amended C5 at the concrete 16-byte allocation. -/
theorem redirect_RtlAllocateHeap_roundtrip_witness :
    (0 < 16 ∧ stHeap0.heapStart ≤ stHeap0.nextFree ∧
     stHeap0.nextFree + 16 + 8 < ADDR_SPACE) ∧
    ((redirect_RtlAllocateHeap nativeHp0 1 1 0 16 stHeap0).1
        = stHeap0.nextFree + 8 ∧
     (redirect_RtlAllocateHeap nativeHp0 1 1 0 16 stHeap0).2.mem
         stHeap0.nextFree = some (16 + 8) ∧
     is_dynamo_address (redirect_RtlAllocateHeap nativeHp0 1 1 0 16 stHeap0).2
         (stHeap0.nextFree + 8) = true ∧
     redirect_RtlSizeHeap nativeHp0 1 1 0 (stHeap0.nextFree + 8)
         (redirect_RtlAllocateHeap nativeHp0 1 1 0 16 stHeap0).2 = 16 + 8 ∧
     (redirect_RtlFreeHeap nativeHp0 1 1 0 (stHeap0.nextFree + 8)
         (redirect_RtlAllocateHeap nativeHp0 1 1 0 16 stHeap0).2).1 = true) :=
  ⟨⟨by decide, by decide, by decide⟩,
   redirect_RtlAllocateHeap_roundtrip nativeHp0 1 0 16 stHeap0
     (by decide) (by decide) (by decide)⟩

/-- C6: what the code actually does with `NULL` on `PEB.ProcessHeap`.
`is_dynamo_address(NULL)` is false, so `redirect_RtlFreeHeap` and
`redirect_RtlSizeHeap` fall through to the REAL `RtlFreeHeap` and
`RtlSizeHeap` — the in-branch `return false` / `return 0` for `NULL` is
unreachable; and `redirect_RtlReAllocateHeap`, whose guard admits
`ptr == NULL`, allocates a fresh block and then wild-reads the size
header at `NULL - sizeof(size_t)` = `2^64 - 8` instead of returning the
fresh block. -/
theorem redirect_null_heap_ops (nativeHp : NativeHeap) (processHeap flags size : Nat)
    (st : HeapState) (hstart : 0 < st.heapStart)
    (hspace : st.nextFree < 2 ^ 64 - 8)
    (hnohdr : st.mem (hdrAddr 0) = none) :
    is_dynamo_address st 0 = false ∧
    redirect_RtlFreeHeap nativeHp processHeap processHeap flags 0 st
      = (nativeHp.free processHeap flags 0, st) ∧
    redirect_RtlSizeHeap nativeHp processHeap processHeap flags 0 st
      = nativeHp.size processHeap flags 0 ∧
    redirect_RtlReAllocateHeap nativeHp processHeap processHeap flags 0 size st
      = ReallocResult.wildRead (2 ^ 64 - 8) := by
  have hdyn : is_dynamo_address st 0 = false := by
    unfold is_dynamo_address
    simp only [Bool.and_eq_false_iff, decide_eq_false_iff_not]
    left
    omega
  have hhdr0 : hdrAddr 0 = 2 ^ 64 - 8 := by
    unfold hdrAddr ADDR_SPACE
    exact Nat.mod_eq_of_lt (by omega)
  refine ⟨hdyn, ?_, ?_, ?_⟩
  · unfold redirect_RtlFreeHeap
    rw [if_neg (by rw [hdyn]; simp)]
  · unfold redirect_RtlSizeHeap
    rw [if_neg (by rw [hdyn]; simp)]
  · have halloc2 : redirect_RtlAllocateHeap nativeHp processHeap processHeap flags size st
        = (st.nextFree + 8,
           { heapStart := st.heapStart,
             nextFree := st.nextFree + (size + 8),
             blocks := (st.nextFree, size + 8) :: st.blocks,
             mem := fun a => if a = st.nextFree then some (size + 8) else st.mem a }) := by
      unfold redirect_RtlAllocateHeap global_heap_alloc
      rw [if_pos (by simp)]
    have hmem2 : (redirect_RtlAllocateHeap nativeHp processHeap processHeap flags
        size st).2.mem (hdrAddr 0) = none := by
      rw [halloc2]
      show (if hdrAddr 0 = st.nextFree then some (size + 8) else st.mem (hdrAddr 0))
        = none
      rw [if_neg (by rw [hhdr0]; omega)]
      exact hnohdr
    unfold redirect_RtlReAllocateHeap
    rw [if_pos (by rw [hdyn]; simp)]
    rw [hhdr0] at hmem2
    simp only [hhdr0, hmem2]

/-- Witness for C6 at the concrete input `redirect_RtlReAllocateHeap(PEB.ProcessHeap, 0, NULL, 16)`. -/
theorem redirect_null_heap_ops_witness :
    (0 < stHeap0.heapStart ∧ stHeap0.nextFree < 2 ^ 64 - 8 ∧
     stHeap0.mem (hdrAddr 0) = none) ∧
    (is_dynamo_address stHeap0 0 = false ∧
     redirect_RtlFreeHeap nativeHp0 1 1 0 0 stHeap0 = (nativeHp0.free 1 0 0, stHeap0) ∧
     redirect_RtlSizeHeap nativeHp0 1 1 0 0 stHeap0 = nativeHp0.size 1 0 0 ∧
     redirect_RtlReAllocateHeap nativeHp0 1 1 0 0 16 stHeap0
       = ReallocResult.wildRead (2 ^ 64 - 8)) :=
  ⟨⟨by decide, by decide, by rfl⟩,
   redirect_null_heap_ops nativeHp0 1 0 16 stHeap0 (by decide) (by decide) (by rfl)⟩

/-! ### Claim C8: `privload_map_and_relocate` -/

/-- Environment for the mapper: file open success, the (base, size) the
kernel chooses for the image section, the preferred base from the PE
headers, `module_file_relocatable` (presence of a relocation directory),
and whether `module_rebase` succeeds. -/
structure MapEnv where
  openOk : String → Bool
  mapAt : String → Nat × Nat
  preferredBase : String → Nat
  relocatable : String → Bool
  rebaseOk : String → Bool

/-- Outcome of `privload_map_and_relocate`: the returned base/size (none
is the NULL return), whether `(*unmap_func)` ran, and whether
`module_rebase` was invoked to apply base relocations. -/
structure MapOutcome where
  result : Option (Nat × Nat)
  unmapped : Bool
  rebased : Bool
  deriving Repr, DecidableEq

/-- `privload_map_and_relocate`: open (fail → NULL), map at the kernel's
choice, and if the actual base differs from the preferred base either
reject a non-relocatable image (unmap, NULL) or rebase in place,
unmapping on a relocation failure. -/
def privload_map_and_relocate (env : MapEnv) (filename : String) : MapOutcome :=
  if !(env.openOk filename) then ⟨none, false, false⟩
  else
    let m := env.mapAt filename
    let pref := env.preferredBase filename
    if pref ≠ m.1 then
      if !(env.relocatable filename) then ⟨none, true, false⟩
      else if !(env.rebaseOk filename) then ⟨none, true, true⟩
      else ⟨some m, false, true⟩
    else ⟨some m, false, false⟩

/-- C8: when the mapped base differs from the preferred base, a
non-relocatable image makes the load fail — the image is unmapped and
NULL returned (`NotRelocatable`); a relocatable one has its base
relocations applied (`module_rebase`), and if they succeed the mapping is
returned. -/
theorem privload_map_and_relocate_spec (env : MapEnv) (fn : String)
    (hopen : env.openOk fn = true)
    (hdiff : env.preferredBase fn ≠ (env.mapAt fn).1) :
    (env.relocatable fn = false →
       (privload_map_and_relocate env fn).result = none ∧
       (privload_map_and_relocate env fn).unmapped = true) ∧
    (env.relocatable fn = true →
       (privload_map_and_relocate env fn).rebased = true ∧
       (env.rebaseOk fn = true →
         (privload_map_and_relocate env fn).result = some (env.mapAt fn))) := by
  unfold privload_map_and_relocate
  rw [hopen]
  simp only [Bool.not_true, Bool.false_eq_true, if_false, if_pos hdiff]
  constructor
  · intro hrel
    rw [hrel]
    simp
  · intro hrel
    rw [hrel]
    constructor
    · by_cases hrb : env.rebaseOk fn = true <;> simp [hrb]
    · intro hrb
      rw [hrb]
      simp

/-- A concrete mapper environment: the file maps at base 5000 with
preferred base 4000; it has a relocation directory and rebasing
succeeds. -/
def envC8 : MapEnv :=
  ⟨fun _ => true, fun _ => (5000, 8192), fun _ => 4000, fun _ => true, fun _ => true⟩

/-- A second environment identical except the image is not relocatable. -/
def envC8n : MapEnv :=
  ⟨fun _ => true, fun _ => (5000, 8192), fun _ => 4000, fun _ => false, fun _ => true⟩

/-- Witness for C8: the non-relocatable displaced image is unmapped and
rejected; the relocatable one is rebased and returned. -/
theorem privload_map_and_relocate_spec_witness :
    (envC8n.openOk "x.dll" = true ∧ envC8n.preferredBase "x.dll" ≠ (envC8n.mapAt "x.dll").1 ∧
     (envC8n.relocatable "x.dll" = false →
        (privload_map_and_relocate envC8n "x.dll").result = none ∧
        (privload_map_and_relocate envC8n "x.dll").unmapped = true)) ∧
    (envC8.relocatable "x.dll" = true →
       (privload_map_and_relocate envC8 "x.dll").rebased = true ∧
       (envC8.rebaseOk "x.dll" = true →
         (privload_map_and_relocate envC8 "x.dll").result = some (envC8.mapAt "x.dll"))) :=
  ⟨⟨by decide, by decide,
    (privload_map_and_relocate_spec envC8n "x.dll" (by decide) (by decide)).1⟩,
   (privload_map_and_relocate_spec envC8 "x.dll" (by decide) (by decide)).2⟩

/-! ### Claim C10: `privload_call_entry` -/

def DLL_PROCESS_DETACH : Nat := 0
def DLL_PROCESS_ATTACH : Nat := 1
def DLL_THREAD_ATTACH : Nat := 2
def DLL_THREAD_DETACH : Nat := 3

/-- `privload_call_entry`: compute the entry point (`get_module_entry`
returns the base itself when the entry RVA is 0, and may be nil); call it
only when non-nil and different from the base, else report success.  The
second component records the call actually made. -/
def privload_call_entry (entry : Option Nat) (base reason : Nat)
    (entryFn : Nat → Nat → Bool) : Bool × List (Nat × Nat) :=
  match entry with
  | none => (true, [])
  | some e => if e ≠ base then (entryFn e reason, [(e, reason)]) else (true, [])

/-- C10: for every reason code, a nil entry or an entry equal to the
module base makes `privload_call_entry` return true without calling
anything, so a DLL with no entry point never fails entry dispatch. -/
theorem privload_call_entry_no_entry (entry : Option Nat) (base reason : Nat)
    (entryFn : Nat → Nat → Bool) (h : entry = none ∨ entry = some base) :
    privload_call_entry entry base reason entryFn = (true, []) := by
  rcases h with h | h
  · rw [h]; rfl
  · rw [h]
    unfold privload_call_entry
    simp

/-- Witness for C10: an entry equal to the base, under PROCESS_ATTACH,
makes no call and reports success (with an entry function that would
return false if it were called). -/
theorem privload_call_entry_no_entry_witness :
    ((some 4096 : Option Nat) = none ∨ (some 4096 : Option Nat) = some 4096) ∧
    privload_call_entry (some 4096) 4096 DLL_PROCESS_ATTACH (fun _ _ => false)
      = (true, []) :=
  ⟨Or.inr rfl,
   privload_call_entry_no_entry (some 4096) 4096 DLL_PROCESS_ATTACH
     (fun _ _ => false) (Or.inr rfl)⟩

end PrivLoader
